import Mathlib

/-!
Verification of the sample-level transformation pipeline of add-chirps.py.

The program is embedded shallowly: Python floats become exact rationals,
16-bit PCM words become integers, the audio decoder becomes an explicit
list of frames (one list of channel values per frame, blocks flattened,
which preserves the yielded values because the inner break re-fires on
every later block), and the fallible parts return Except values.  The
random number generator is threaded as an explicit argument in the unit
interval, matching random.random().
-/

namespace AddChirps

/-- Failures of the modelled pipeline: the unsupported-channel-layout
error raised by read_samples, and the Python ZeroDivisionError raised
when a progress update divides by a zero file_duration_sec. -/
inductive Err
  | unsupportedChannelLayout
  | zeroDivision
  deriving DecidableEq

/-- Python int() applied to a rational: truncation toward zero.  This is
what the source computes with int(sample_float * 32767) and with
int(duration * rate). -/
def pyTrunc (q : ℚ) : ℤ :=
  q.num.tdiv q.den

/-- Mono downmix of one interleaved frame, from read_samples:
mono_sample = sum(sample_list) / len(sample_list). -/
def downmix (frame : List ℤ) : ℚ :=
  (frame.sum : ℚ) / (frame.length : ℚ)

/-- The frame-selection loop of read_samples.  The index counts every
decoded frame from the start of the file; frames before the offset are
skipped, and once the index reaches offset + count the loop stops
yielding.  Polymorphic in the element type so it can be stated both for
raw frames and for mono samples. -/
def windowLoop {α : Type} (offsetSampleCount fileSampleCount : ℕ) :
    ℕ → List α → List α
  | _, [] => []
  | sampleIdx, x :: xs =>
    if offsetSampleCount ≤ sampleIdx then
      if offsetSampleCount + fileSampleCount ≤ sampleIdx then []
      else x :: windowLoop offsetSampleCount fileSampleCount (sampleIdx + 1) xs
    else windowLoop offsetSampleCount fileSampleCount (sampleIdx + 1) xs

/-- read_samples: checks the channel layout, then yields the mono
downmix of the frames whose index lies in the window
[file_idx * file_sample_count, file_idx * file_sample_count + file_sample_count). -/
def read_samples (channelCount : ℕ) (frames : List (List ℤ))
    (fileIdx fileSampleCount : ℕ) : Except Err (List ℚ) :=
  if channelCount = 1 ∨ channelCount = 2 then
    Except.ok
      ((windowLoop (fileIdx * fileSampleCount) fileSampleCount 0 frames).map downmix)
  else
    Except.error Err.unsupportedChannelLayout

/-- The segment of the mono stream produced for one output file, i.e.
the yield window of read_samples applied to the mono samples. -/
def segmentSamples (fileSampleCount fileIdx : ℕ) (xs : List ℚ) : List ℚ :=
  windowLoop (fileIdx * fileSampleCount) fileSampleCount 0 xs

/-- The file-count computation of process:
file_count, remainder = divmod(total_sample_count, file_sample_count);
if remainder: file_count += 1. -/
def fileCount (totalSampleCount fileSampleCount : ℕ) : ℕ :=
  totalSampleCount / fileSampleCount +
    (if totalSampleCount % fileSampleCount = 0 then 0 else 1)

/-- get_file_sample_count: the configured segment length in samples, or
the whole file when file_duration_sec is falsy (zero). -/
def get_file_sample_count (fileDurationSec durationSec : ℚ)
    (sampleRateHz : ℕ) : ℤ :=
  if fileDurationSec ≠ 0 then pyTrunc (fileDurationSec * (sampleRateHz : ℚ))
  else pyTrunc (durationSec * (sampleRateHz : ℚ))

/-- Steps 1 and 2 of the per-sample transform in process_file: update the
running silence clock by the sample period or reset it on a loud sample,
then apply the re-arm reset when the clock exceeds
silence_duration_sec + chirp_duration_sec. -/
def silenceUpdate (silenceThresholdVolume silenceDurationSec chirpDurationSec
    samplePeriodSec : ℚ) (sampleFloat silenceSec : ℚ) : ℚ :=
  let s := if |sampleFloat| < silenceThresholdVolume
    then silenceSec + samplePeriodSec else 0
  if s > silenceDurationSec + chirpDurationSec then 0 else s

/-- Step 3 of the per-sample transform: replace the sample with
(random.random() * 2.0 - 1) * chirp_volume while the post-reset silence
clock exceeds silence_duration_sec, otherwise pass it through. -/
def chirpOut (silenceDurationSec chirpVolume : ℚ) (rand sampleFloat silenceSec : ℚ) : ℚ :=
  if silenceSec > silenceDurationSec then (rand * 2 - 1) * chirpVolume
  else sampleFloat

/-- One full iteration of the silence-chirp transform of process_file:
returns the output sample and the new silence clock. -/
def chirpStep (silenceThresholdVolume silenceDurationSec chirpDurationSec
    chirpVolume samplePeriodSec : ℚ) (rand sampleFloat silenceSec : ℚ) : ℚ × ℚ :=
  let s := silenceUpdate silenceThresholdVolume silenceDurationSec
    chirpDurationSec samplePeriodSec sampleFloat silenceSec
  (chirpOut silenceDurationSec chirpVolume rand sampleFloat s, s)

/-- sample_word = int(sample_float * 32767), the 16-bit conversion in
process_file before the word is appended to the chunk buffer. -/
def sampleToWord (q : ℚ) : ℤ :=
  pyTrunc (q * 32767)

/-- sample_float = sample_word / 32767, the normalization applied in
process_file to each mono sample coming out of read_samples. -/
def normalizeSample (w : ℚ) : ℚ :=
  w / 32767

/-- The chunking loop of process_file, restricted to its effect on the
external encoder: per sample the chunk clock advances by the sample
period and the word is buffered; when the clock exceeds
chunk_duration_sec the buffer is passed to encode_and_write_mp3_chunk
and cleared; after the loop the remaining buffer is passed
unconditionally (the final end-of-stream encode call, which precedes the
flush).  Returns the list of buffers handed to the encoder, in order. -/
def encodeCalls (samplePeriodSec chunkDurationSec : ℚ) :
    List ℤ → ℚ → List ℤ → List (List ℤ)
  | [], _, buf => [buf]
  | w :: ws, chunkSec, buf =>
    let chunkSec := chunkSec + samplePeriodSec
    let buf := buf ++ [w]
    if chunkSec > chunkDurationSec then
      buf :: encodeCalls samplePeriodSec chunkDurationSec ws 0 []
    else
      encodeCalls samplePeriodSec chunkDurationSec ws chunkSec buf

/-- The transform portion of the process_file loop: normalizes nothing
(its input is already sample_float values), applies chirpStep threading
the silence clock, and converts each output to a 16-bit word. -/
def transformWords (silenceThresholdVolume silenceDurationSec chirpDurationSec
    chirpVolume samplePeriodSec : ℚ) (rand : ℕ → ℚ) :
    List ℚ → ℕ → ℚ → List ℤ
  | [], _, _ => []
  | q :: qs, idx, silenceSec =>
    let p := chirpStep silenceThresholdVolume silenceDurationSec chirpDurationSec
      chirpVolume samplePeriodSec (rand idx) q silenceSec
    sampleToWord p.1 ::
      transformWords silenceThresholdVolume silenceDurationSec chirpDurationSec
        chirpVolume samplePeriodSec rand qs (idx + 1) p.2

/-- queue_progress_update: completed_fraction = completed_sec /
file_duration_sec.  In Python a float division by zero raises
ZeroDivisionError, modelled as the error branch. -/
def queue_progress_update (fileDurationSec completedSec : ℚ) : Except Err ℚ :=
  if fileDurationSec = 0 then Except.error Err.zeroDivision
  else Except.ok (completedSec / fileDurationSec)

/-- Externally observable effects of one worker: creating (opening) its
output file, handing a buffer of words to the external encoder, and the
terminal flush of the encoder. -/
inductive Event
  | openOutput
  | encodeCall (words : List ℤ)
  | flushCall
  deriving DecidableEq

/-- Per-run configuration fields used by one worker. -/
structure Config where
  silenceThresholdVolume : ℚ
  silenceDurationSec : ℚ
  chirpVolume : ℚ
  chirpDurationSec : ℚ
  chunkDurationSec : ℚ
  fileDurationSec : ℚ

/-- process_file for one segment, as a trace of observable events plus a
result.  The output file is opened for writing before the first sample
is requested from the read_samples generator, so the channel-layout
check (which runs at the first generator step) fires after the
openOutput event.  Wall-clock-gated progress updates inside the loop are
not modelled (they depend on real time); the final 100 percent update is
unconditional in the source and is modelled, including the division by
file_duration_sec that it performs. -/
def process_file (cfg : Config) (channelCount sampleRateHz : ℕ) (rand : ℕ → ℚ)
    (frames : List (List ℤ)) (fileIdx fileSampleCount : ℕ) :
    List Event × Except Err Unit :=
  match read_samples channelCount frames fileIdx fileSampleCount with
  | Except.error e => ([Event.openOutput], Except.error e)
  | Except.ok monoWords =>
    let samplePeriodSec : ℚ := 1 / (sampleRateHz : ℚ)
    let sampleFloats := monoWords.map normalizeSample
    let words := transformWords cfg.silenceThresholdVolume cfg.silenceDurationSec
      cfg.chirpDurationSec cfg.chirpVolume samplePeriodSec rand sampleFloats 0 0
    let calls := encodeCalls samplePeriodSec cfg.chunkDurationSec words 0 []
    let completedSec := (monoWords.length : ℚ) * samplePeriodSec
    (Event.openOutput :: (calls.map Event.encodeCall ++ [Event.flushCall]),
      match queue_progress_update cfg.fileDurationSec completedSec with
      | Except.error e => Except.error e
      | Except.ok _ => Except.ok ())

/-- The silence clock of a worker fed a constant all-zero stream with
the configuration of the re-arm property: silence_threshold_volume 0.3,
silence_duration_sec 1.0, chirp_duration_sec 0.2 and sample period
1 / sampleRateHz.  Zero is below the threshold, so every step increments
the clock and then applies the re-arm reset. -/
def zeroSilenceStep (sampleRateHz : ℕ) (silenceSec : ℚ) : ℚ :=
  silenceUpdate (3/10) 1 (1/5) (1 / (sampleRateHz : ℚ)) 0 silenceSec

/-- The silence clock after n all-zero samples, starting from 0. -/
def zeroSilenceState (sampleRateHz : ℕ) : ℕ → ℚ
  | 0 => 0
  | n + 1 => zeroSilenceStep sampleRateHz (zeroSilenceState sampleRateHz n)

/-- Whether sample n of the all-zero stream is replaced by a chirp:
the post-reset silence clock exceeds silence_duration_sec = 1. -/
def chirpedAt (sampleRateHz n : ℕ) : Bool :=
  decide (zeroSilenceState sampleRateHz n > 1)

/-- Whether a chirp burst starts at sample n: the sample is chirped and
the previous one was not. -/
def onsetAt (sampleRateHz n : ℕ) : Bool :=
  chirpedAt sampleRateHz n && !(chirpedAt sampleRateHz (n - 1))

/-- Number of chirped samples among samples 1..n of the all-zero stream. -/
def chirpedCount (sampleRateHz : ℕ) : ℕ → ℕ
  | 0 => 0
  | n + 1 => chirpedCount sampleRateHz n + (if chirpedAt sampleRateHz (n + 1) then 1 else 0)

/-- Number of chirp onsets among samples 1..n of the all-zero stream. -/
def onsetCount (sampleRateHz : ℕ) : ℕ → ℕ
  | 0 => 0
  | n + 1 => onsetCount sampleRateHz n + (if onsetAt sampleRateHz (n + 1) then 1 else 0)

/-! ### Helper lemmas -/

theorem windowLoop_of_le {α : Type} (offsetSampleCount fileSampleCount : ℕ) :
    ∀ (xs : List α) (idx : ℕ), offsetSampleCount ≤ idx →
      windowLoop offsetSampleCount fileSampleCount idx xs =
        xs.take (offsetSampleCount + fileSampleCount - idx) := by
  intro xs
  induction xs with
  | nil => intro idx _; simp [windowLoop]
  | cons x xs ih =>
    intro idx hle
    rw [windowLoop, if_pos hle]
    by_cases hend : offsetSampleCount + fileSampleCount ≤ idx
    · rw [if_pos hend]
      have : offsetSampleCount + fileSampleCount - idx = 0 := by omega
      simp [this]
    · rw [if_neg hend, ih (idx + 1) (by omega)]
      have h2 : offsetSampleCount + fileSampleCount - idx =
          (offsetSampleCount + fileSampleCount - (idx + 1)) + 1 := by omega
      rw [h2, List.take_succ_cons]

theorem windowLoop_eq_drop_take {α : Type} (offsetSampleCount fileSampleCount : ℕ) :
    ∀ (xs : List α) (idx : ℕ), idx ≤ offsetSampleCount →
      windowLoop offsetSampleCount fileSampleCount idx xs =
        (xs.drop (offsetSampleCount - idx)).take fileSampleCount := by
  intro xs
  induction xs with
  | nil => intro idx _; simp [windowLoop]
  | cons x xs ih =>
    intro idx hle
    by_cases heq : idx = offsetSampleCount
    · subst heq
      rw [windowLoop, if_pos le_rfl]
      by_cases hcnt : idx + fileSampleCount ≤ idx
      · rw [if_pos hcnt]
        have : fileSampleCount = 0 := by omega
        simp [this]
      · rw [if_neg hcnt, windowLoop_of_le _ _ xs (idx + 1) (by omega)]
        have h2 : idx + fileSampleCount - (idx + 1) = fileSampleCount - 1 := by omega
        have h3 : fileSampleCount = (fileSampleCount - 1) + 1 := by omega
        rw [h2, Nat.sub_self, List.drop_zero, h3, List.take_succ_cons,
          Nat.add_sub_cancel]
    · have hlt : idx < offsetSampleCount := by omega
      rw [windowLoop, if_neg (by omega), ih (idx + 1) (by omega)]
      have h2 : offsetSampleCount - idx = (offsetSampleCount - (idx + 1)) + 1 := by omega
      rw [h2, List.drop_succ_cons]

theorem windowLoop_zero {α : Type} (offsetSampleCount fileSampleCount : ℕ)
    (xs : List α) :
    windowLoop offsetSampleCount fileSampleCount 0 xs =
      (xs.drop offsetSampleCount).take fileSampleCount := by
  rw [windowLoop_eq_drop_take _ _ xs 0 (Nat.zero_le _), Nat.sub_zero]

theorem segmentSamples_eq (fileSampleCount fileIdx : ℕ) (xs : List ℚ) :
    segmentSamples fileSampleCount fileIdx xs =
      (xs.drop (fileIdx * fileSampleCount)).take fileSampleCount :=
  windowLoop_zero _ _ xs

theorem encodeCalls_join (samplePeriodSec chunkDurationSec : ℚ) :
    ∀ (ws : List ℤ) (chunkSec : ℚ) (buf : List ℤ),
      (encodeCalls samplePeriodSec chunkDurationSec ws chunkSec buf).flatten = buf ++ ws := by
  intro ws
  induction ws with
  | nil => intro c b; simp [encodeCalls]
  | cons w ws ih =>
    intro c b
    rw [encodeCalls]
    by_cases h : c + samplePeriodSec > chunkDurationSec
    · simp only [if_pos h, List.flatten_cons, ih]
      simp
    · simp only [if_neg h, ih]
      simp

theorem encodeCalls_ne_nil (samplePeriodSec chunkDurationSec : ℚ) :
    ∀ (ws : List ℤ) (chunkSec : ℚ) (buf : List ℤ),
      encodeCalls samplePeriodSec chunkDurationSec ws chunkSec buf ≠ [] := by
  intro ws
  cases ws with
  | nil => intro c b; simp [encodeCalls]
  | cons w ws =>
    intro c b
    rw [encodeCalls]
    by_cases h : c + samplePeriodSec > chunkDurationSec
    · simp only [if_pos h]
      exact List.cons_ne_nil _ _
    · simp only [if_neg h]
      exact encodeCalls_ne_nil samplePeriodSec chunkDurationSec ws _ _

theorem encodeCalls_dropLast_ne_nil (samplePeriodSec chunkDurationSec : ℚ) :
    ∀ (ws : List ℤ) (chunkSec : ℚ) (buf : List ℤ) (l : List ℤ),
      l ∈ (encodeCalls samplePeriodSec chunkDurationSec ws chunkSec buf).dropLast →
        l ≠ [] := by
  intro ws
  induction ws with
  | nil => intro c b l hl; simp [encodeCalls] at hl
  | cons w ws ih =>
    intro c b l hl
    rw [encodeCalls] at hl
    by_cases h : c + samplePeriodSec > chunkDurationSec
    · rw [if_pos h, List.dropLast_cons_of_ne_nil
        (encodeCalls_ne_nil samplePeriodSec chunkDurationSec ws 0 [])] at hl
      rcases List.mem_cons.mp hl with h1 | h2
      · subst h1; simp
      · exact ih 0 [] l h2
    · rw [if_neg h] at hl
      exact ih _ _ l hl

theorem pyTrunc_eq (q : ℚ) : pyTrunc q = if 0 ≤ q then ⌊q⌋ else ⌈q⌉ := by
  have hfloor : ∀ r : ℚ, 0 ≤ r → r.num.tdiv r.den = ⌊r⌋ := by
    intro r hr
    have hnum : 0 ≤ r.num := Rat.num_nonneg.mpr hr
    have hden : (0 : ℤ) ≤ (r.den : ℤ) := Int.natCast_nonneg _
    rw [Int.tdiv_eq_ediv hnum hden]
    have : ⌊r⌋ = ⌊((r.num : ℚ) / (r.den : ℚ))⌋ := by rw [Rat.num_div_den]
    rw [this, Rat.floor_intCast_div_natCast]
  by_cases hq : 0 ≤ q
  · rw [if_pos hq, pyTrunc, hfloor q hq]
  · rw [if_neg hq, pyTrunc]
    push_neg at hq
    have h1 : q.num = -((-q).num) := by rw [Rat.neg_num, neg_neg]
    have h2 : q.den = (-q).den := (Rat.neg_den q).symm
    rw [h1, h2, Int.neg_tdiv, hfloor (-q) (by linarith)]
    rw [show ⌈q⌉ = -⌊-q⌋ from by rw [← Int.ceil_neg, neg_neg]]

theorem fileCount_eq_ceil (t f : ℕ) (hf : 0 < f) :
    fileCount t f = (t + f - 1) / f := by
  have hd := Nat.div_add_mod t f
  have hr : t % f < f := Nat.mod_lt _ hf
  rw [fileCount]
  by_cases h0 : t % f = 0
  · rw [if_pos h0]
    have he : t + f - 1 = (f - 1) + f * (t / f) := by omega
    have hz : (f - 1) / f = 0 := Nat.div_eq_of_lt (by omega)
    rw [he, Nat.add_mul_div_left _ _ hf, hz]
    simp
  · rw [if_neg h0]
    have he : t + f - 1 = (t % f - 1) + f * (t / f + 1) := by
      rw [Nat.mul_add, Nat.mul_one]; omega
    have hz : (t % f - 1) / f = 0 := Nat.div_eq_of_lt (by omega)
    rw [he, Nat.add_mul_div_left _ _ hf, hz]
    simp

theorem ceil_div_eq_zero (L f : ℕ) (hf : 0 < f) (h : (L + f - 1) / f = 0) :
    L = 0 := by
  by_contra hL
  have h1 : L + f - 1 = (L - 1) + f := by omega
  rw [h1, Nat.add_div_right _ hf] at h
  simp at h

theorem ceil_div_sub (L f n : ℕ) (hf : 0 < f) (h : (L + f - 1) / f = n + 1) :
    (L - f + f - 1) / f = n := by
  have hsmall : (f - 1) / f = 0 := Nat.div_eq_of_lt (by omega)
  by_cases hL : L = 0
  · exfalso
    subst hL
    rw [show 0 + f - 1 = f - 1 from by omega, hsmall] at h
    omega
  · by_cases hLf : L ≤ f
    · have h1 : L + f - 1 = (L - 1) + f := by omega
      have hz : (L - 1) / f = 0 := Nat.div_eq_of_lt (by omega)
      rw [h1, Nat.add_div_right _ hf, hz] at h
      have h2 : L - f = 0 := by omega
      rw [h2, show 0 + f - 1 = f - 1 from by omega, hsmall]
      omega
    · have h1 : L + f - 1 = (L - 1) + f := by omega
      rw [h1, Nat.add_div_right _ hf] at h
      have h2 : L - f + f - 1 = L - 1 := by omega
      rw [h2]
      exact Nat.add_right_cancel h

theorem segments_flatten (f : ℕ) (hf : 0 < f) :
    ∀ (n : ℕ) (xs : List ℚ), (xs.length + f - 1) / f = n →
      ((List.range n).map fun i => (xs.drop (i * f)).take f).flatten = xs := by
  intro n
  induction n with
  | zero =>
    intro xs h
    have hxs : xs = [] := List.eq_nil_of_length_eq_zero (ceil_div_eq_zero _ f hf h)
    subst hxs
    simp
  | succ n ih =>
    intro xs h
    rw [List.range_succ_eq_map, List.map_cons, List.flatten_cons, List.map_map]
    have hfun : ∀ i ∈ List.range n,
        ((fun i => (xs.drop (i * f)).take f) ∘ Nat.succ) i =
          (fun i => ((xs.drop f).drop (i * f)).take f) i := by
      intro i _
      simp only [Function.comp_apply]
      rw [Nat.succ_mul, Nat.add_comm, ← List.drop_drop]
    rw [List.map_congr_left hfun]
    have hlen : ((xs.drop f).length + f - 1) / f = n := by
      rw [List.length_drop]
      exact ceil_div_sub xs.length f n hf h
    rw [ih (xs.drop f) hlen]
    simp only [Nat.zero_mul, List.drop_zero]
    exact List.take_append_drop f xs

theorem mul_lt_of_lt_ceil (L f i : ℕ) (hf : 0 < f)
    (hi : i < (L + f - 1) / f) : i * f < L := by
  have h2 : (i + 1) * f ≤ L + f - 1 := (Nat.le_div_iff_mul_le hf).mp hi
  rw [Nat.add_mul, Nat.one_mul] at h2
  omega

/-! ### Claim theorems -/

/-- Claim C1: with a positive file_sample_count, the planning step of
process produces file_count = ceil(total / file_sample_count) segments
whose read_samples windows tile the stream exactly: concatenating the
segments in ascending index order reconstructs the whole stream
(ascending, contiguous, non-overlapping, counts summing to the total),
every segment except possibly the last has exactly file_sample_count
samples, and every segment is non-empty and at most file_sample_count
samples long. -/
theorem segment_plan_tiles (fileSampleCount : ℕ) (xs : List ℚ)
    (hf : 0 < fileSampleCount) :
    fileCount xs.length fileSampleCount =
      (xs.length + fileSampleCount - 1) / fileSampleCount ∧
    ((List.range (fileCount xs.length fileSampleCount)).map
      (fun i => segmentSamples fileSampleCount i xs)).flatten = xs ∧
    (∀ i, i + 1 < fileCount xs.length fileSampleCount →
      (segmentSamples fileSampleCount i xs).length = fileSampleCount) ∧
    (∀ i, i < fileCount xs.length fileSampleCount →
      0 < (segmentSamples fileSampleCount i xs).length ∧
      (segmentSamples fileSampleCount i xs).length ≤ fileSampleCount) := by
  have hceil := fileCount_eq_ceil xs.length fileSampleCount hf
  refine ⟨hceil, ?_, ?_, ?_⟩
  · simp only [segmentSamples_eq]
    rw [hceil]
    exact segments_flatten fileSampleCount hf _ xs rfl
  · intro i hi
    rw [hceil] at hi
    have h2 := mul_lt_of_lt_ceil xs.length fileSampleCount (i + 1) hf hi
    rw [Nat.add_mul, Nat.one_mul] at h2
    rw [segmentSamples_eq]
    simp only [List.length_take, List.length_drop]
    omega
  · intro i hi
    rw [hceil] at hi
    have h2 := mul_lt_of_lt_ceil xs.length fileSampleCount i hf
      (by omega : i < (xs.length + fileSampleCount - 1) / fileSampleCount)
    rw [segmentSamples_eq]
    simp only [List.length_take, List.length_drop]
    omega

/-- Witness for claim C1 at a concrete input: segment length 2 over the
three-sample stream [1, 2, 3], giving two segments [1, 2] and [3]. -/
theorem segment_plan_tiles_witness :
    (0 < 2) ∧
    (fileCount ([(1 : ℚ), 2, 3].length) 2 =
        (([(1 : ℚ), 2, 3].length) + 2 - 1) / 2 ∧
      ((List.range (fileCount ([(1 : ℚ), 2, 3].length) 2)).map
        (fun i => segmentSamples 2 i [(1 : ℚ), 2, 3])).flatten = [(1 : ℚ), 2, 3] ∧
      (∀ i, i + 1 < fileCount ([(1 : ℚ), 2, 3].length) 2 →
        (segmentSamples 2 i [(1 : ℚ), 2, 3]).length = 2) ∧
      (∀ i, i < fileCount ([(1 : ℚ), 2, 3].length) 2 →
        0 < (segmentSamples 2 i [(1 : ℚ), 2, 3]).length ∧
        (segmentSamples 2 i [(1 : ℚ), 2, 3]).length ≤ 2)) :=
  ⟨by norm_num, segment_plan_tiles 2 [1, 2, 3] (by norm_num)⟩

/-- Claim C2: in the silence-chirp transform, after the state update and
the re-arm reset, a sample whose post-reset silence clock exceeds
silence_duration_sec is replaced by the fresh draw
(random * 2 - 1) * chirp_volume, whose absolute value is at most
chirp_volume; otherwise the sample passes through unchanged. -/
theorem chirp_replaces_or_passes_through
    (silenceThresholdVolume silenceDurationSec chirpDurationSec chirpVolume
      samplePeriodSec rand sampleFloat silenceSec : ℚ)
    (hr0 : 0 ≤ rand) (hr1 : rand < 1) (hv : 0 ≤ chirpVolume) :
    (silenceUpdate silenceThresholdVolume silenceDurationSec chirpDurationSec
        samplePeriodSec sampleFloat silenceSec > silenceDurationSec →
      (chirpStep silenceThresholdVolume silenceDurationSec chirpDurationSec
          chirpVolume samplePeriodSec rand sampleFloat silenceSec).1 =
        (rand * 2 - 1) * chirpVolume ∧
      |(chirpStep silenceThresholdVolume silenceDurationSec chirpDurationSec
          chirpVolume samplePeriodSec rand sampleFloat silenceSec).1| ≤ chirpVolume) ∧
    (¬ silenceUpdate silenceThresholdVolume silenceDurationSec chirpDurationSec
        samplePeriodSec sampleFloat silenceSec > silenceDurationSec →
      (chirpStep silenceThresholdVolume silenceDurationSec chirpDurationSec
          chirpVolume samplePeriodSec rand sampleFloat silenceSec).1 = sampleFloat) := by
  constructor
  · intro h
    rw [chirpStep, chirpOut, if_pos h]
    refine ⟨rfl, ?_⟩
    rw [abs_mul, abs_of_nonneg hv]
    have habs : |rand * 2 - 1| ≤ 1 := abs_le.mpr ⟨by linarith, by linarith⟩
    calc |rand * 2 - 1| * chirpVolume ≤ 1 * chirpVolume :=
          mul_le_mul_of_nonneg_right habs hv
      _ = chirpVolume := one_mul _
  · intro h
    rw [chirpStep, chirpOut, if_neg h]

/-- Witness for claim C2 at a concrete input: threshold 1, duration 0,
chirp duration 1, volume 1/2, period 1, random draw 1/2, input sample 0,
silence clock 0.  The silence clock becomes 1 which exceeds the duration
0, so the output is the chirp value (1/2 * 2 - 1) * 1/2 = 0. -/
theorem chirp_replaces_or_passes_through_witness :
    (0 ≤ (1/2 : ℚ)) ∧ ((1/2 : ℚ) < 1) ∧ (0 ≤ (1/2 : ℚ)) ∧
    ((silenceUpdate 1 0 1 1 0 0 > 0 →
      (chirpStep 1 0 1 (1/2) 1 (1/2) 0 0).1 = ((1/2 : ℚ) * 2 - 1) * (1/2) ∧
      |(chirpStep 1 0 1 (1/2) 1 (1/2) 0 0).1| ≤ (1/2 : ℚ)) ∧
    (¬ silenceUpdate 1 0 1 1 0 0 > 0 →
      (chirpStep 1 0 1 (1/2) 1 (1/2) 0 0).1 = 0)) :=
  ⟨by norm_num, by norm_num, by norm_num,
    chirp_replaces_or_passes_through 1 0 1 (1/2) 1 (1/2) 0 0
      (by norm_num) (by norm_num) (by norm_num)⟩

/-- Claim C7: the concatenation of all buffers handed to the external
encoder, including the final end-of-stream encode call, equals the input
word sequence: every sample is encoded exactly once, in order. -/
theorem all_samples_encoded_once (samplePeriodSec chunkDurationSec : ℚ)
    (ws : List ℤ) :
    (encodeCalls samplePeriodSec chunkDurationSec ws 0 []).flatten = ws := by
  rw [encodeCalls_join, List.nil_append]

/-- Counterexample to claim C6: with sample period 1, chunk duration 1/2
and the single input word 5, the in-loop flush empties the buffer at the
last sample and the unconditional final call then hands the encoder an
empty buffer, so the encoder is invoked with zero samples. -/
theorem empty_final_encode_call :
    encodeCalls 1 (1/2) [5] 0 [] = [[5], []] := by
  rw [encodeCalls]
  norm_num
  rw [encodeCalls]

/-- Claim C6 as amended: every buffer handed to the encoder before the
final end-of-stream call is non-empty, and the final call (followed by
the terminal flush) always happens, but the final buffer may be empty. -/
theorem nonfinal_encode_calls_nonempty (samplePeriodSec chunkDurationSec : ℚ)
    (ws : List ℤ) :
    encodeCalls samplePeriodSec chunkDurationSec ws 0 [] ≠ [] ∧
    ∀ l ∈ (encodeCalls samplePeriodSec chunkDurationSec ws 0 []).dropLast, l ≠ [] :=
  ⟨encodeCalls_ne_nil samplePeriodSec chunkDurationSec ws 0 [],
    fun l hl => encodeCalls_dropLast_ne_nil samplePeriodSec chunkDurationSec ws 0 [] l hl⟩

/-- Witness for claim C6 as amended: with period 1, chunk duration 1/2
and words [3, 4], the buffer [3] is a non-final encode call and the
theorem yields that it is non-empty. -/
theorem nonfinal_encode_calls_nonempty_witness : ([3] : List ℤ) ≠ [] :=
  (nonfinal_encode_calls_nonempty 1 (1/2) [3, 4]).2 [3] (by
    have h : encodeCalls 1 (1/2) [3, 4] 0 [] = [[3], [4], []] := by
      rw [encodeCalls]
      norm_num
      rw [encodeCalls]
      norm_num
      rw [encodeCalls]
    rw [h]
    simp)

/-- Counterexample to claim C8: the reachable transformed sample
3/65534 (the passthrough of the stereo frame with words 1 and 2, whose
mono mean is 3/2) converts to int(3/2) = 1 in the code, while
round(3/2 * 32767 / 32767 ... ) as claimed would give round(3/2) = 2:
the conversion is a truncation, not a rounding. -/
theorem truncation_not_rounding :
    sampleToWord (3/65534) = 1 ∧ round ((3/65534 : ℚ) * 32767) = 2 := by
  have hval : (3/65534 : ℚ) * 32767 = 3/2 := by norm_num
  constructor
  · rw [sampleToWord, hval, pyTrunc_eq, if_pos (by norm_num)]
    norm_num [Int.floor_eq_iff]
  · rw [hval, round_eq]
    norm_num

/-- Claim C8 as amended: the 16-bit conversion is Python int(), i.e.
truncation toward zero of sample * 32767 (floor for non-negative values,
ceiling for negative ones); no explicit clipping step is applied. -/
theorem word_conversion_truncates (q : ℚ) :
    sampleToWord q = if 0 ≤ q then ⌊q * 32767⌋ else ⌈q * 32767⌉ := by
  rw [sampleToWord, pyTrunc_eq]
  have hiff : 0 ≤ q * 32767 ↔ 0 ≤ q := by
    constructor
    · intro h; nlinarith
    · intro h; positivity
  by_cases hq : 0 ≤ q
  · rw [if_pos (hiff.mpr hq), if_pos hq]
  · rw [if_neg (fun h => hq (hiff.mp h)), if_neg hq]

/-- Claim C10: with chirp_duration_sec = 0 and a non-negative
silence_duration_sec, the re-arm reset fires exactly when the chirp
condition would, zeroing the clock first, so the chirp branch is
unreachable and every output sample equals its input sample. -/
theorem zero_chirp_duration_passes_through
    (silenceThresholdVolume silenceDurationSec chirpVolume samplePeriodSec
      rand sampleFloat silenceSec : ℚ) (hdur : 0 ≤ silenceDurationSec) :
    (chirpStep silenceThresholdVolume silenceDurationSec 0 chirpVolume
      samplePeriodSec rand sampleFloat silenceSec).1 = sampleFloat := by
  rw [chirpStep, chirpOut, silenceUpdate]
  split_ifs with h1 h2 h3 h4 h5 <;> first | rfl | linarith

/-- Witness for claim C10 at a concrete input: threshold 1, duration 2,
volume 1/2, period 1, random draw 1/2, sample 0, silence clock 5. -/
theorem zero_chirp_duration_passes_through_witness :
    (0 ≤ (2 : ℚ)) ∧ (chirpStep 1 2 0 (1/2) 1 (1/2) 0 5).1 = 0 :=
  ⟨by norm_num, zero_chirp_duration_passes_through 1 2 (1/2) 1 (1/2) 0 5 (by norm_num)⟩

/-- Closed form of the silence clock of the all-zero stream at the
re-arm configuration: with T = floor(1.2 * R) + 1 the clock cycles
through 0/R, 1/R, ..., (T-1)/R and resets, so after n samples it equals
(n mod T) / R. -/
theorem zeroSilenceState_closed (R : ℕ) (hR : 0 < R) (n : ℕ) :
    zeroSilenceState R n =
      ((n % (6 * R / 5 + 1) : ℕ) : ℚ) / (R : ℚ) := by
  set T := 6 * R / 5 + 1 with hT
  induction n with
  | zero => simp [zeroSilenceState]
  | succ n ih =>
    rw [zeroSilenceState, zeroSilenceStep, silenceUpdate, ih]
    rw [if_pos (by norm_num : |(0 : ℚ)| < 3/10)]
    set k := n % T with hk
    have hkT : k < T := Nat.mod_lt _ (by omega)
    have hsum : ((k : ℕ) : ℚ) / R + 1 / R = ((k + 1 : ℕ) : ℚ) / R := by
      push_cast
      rw [div_add_div_same]
    rw [hsum]
    have hcond : (((k + 1 : ℕ) : ℚ) / R > 1 + 1/5) ↔ 6 * R < (k + 1) * 5 := by
      rw [show (1 : ℚ) + 1/5 = 6/5 from by norm_num, gt_iff_lt,
        div_lt_div_iff₀ (by norm_num) (by exact_mod_cast hR)]
      exact_mod_cast Iff.rfl
    have hdivlt : 6 * R / 5 < k + 1 ↔ 6 * R < (k + 1) * 5 :=
      Nat.div_lt_iff_lt_mul (by norm_num)
    by_cases hre : 6 * R < (k + 1) * 5
    · rw [if_pos (hcond.mpr hre)]
      have hk1 : 6 * R / 5 < k + 1 := hdivlt.mpr hre
      have hkeq : k = T - 1 := by omega
      have hd := Nat.div_add_mod n T
      have hsplit : n + 1 = T * (n / T + 1) := by
        rw [Nat.mul_add, Nat.mul_one]; omega
      rw [hsplit, Nat.mul_mod_right]
      norm_num
    · rw [if_neg (fun hc => hre (hcond.mp hc))]
      have hk1 : ¬ 6 * R / 5 < k + 1 := fun hh => hre (hdivlt.mp hh)
      have hlt : k + 1 < T := by omega
      have hd := Nat.div_add_mod n T
      have hsplit : n + 1 = T * (n / T) + (k + 1) := by omega
      rw [hsplit, Nat.mul_add_mod, Nat.mod_eq_of_lt hlt]

/-- A sample of the all-zero stream is chirped exactly when its position
within the reset cycle of length T = floor(1.2 * R) + 1 is beyond R. -/
theorem chirpedAt_iff (R : ℕ) (hR : 0 < R) (n : ℕ) :
    chirpedAt R n = true ↔ R < n % (6 * R / 5 + 1) := by
  rw [chirpedAt, decide_eq_true_iff, gt_iff_lt,
    zeroSilenceState_closed R hR n,
    lt_div_iff₀ (by exact_mod_cast hR : (0 : ℚ) < (R : ℚ)), one_mul]
  exact_mod_cast Iff.rfl

/-- Counterexample to claim C3: at the fixed sample rate of 4 Hz a
5-second all-silent input is 20 samples, and none of them is chirped
(let alone two onsets): with a period of 1/4 the clock jumps from 1 to
5/4 > 6/5 and resets before ever satisfying the chirp condition.  The
claim as stated quantifies over every fixed sample rate and therefore
fails here. -/
theorem five_seconds_at_4hz_has_no_chirps :
    chirpedCount 4 20 = 0 ∧ onsetCount 4 20 = 0 := by
  have hch : ∀ n, chirpedAt 4 n = false := by
    intro n
    cases hc : chirpedAt 4 n
    · rfl
    · exfalso
      have h4 := (chirpedAt_iff 4 (by norm_num) n).mp hc
      have hmod : n % (6 * 4 / 5 + 1) < 5 := Nat.mod_lt _ (by norm_num)
      omega
  have hon : ∀ n, onsetAt 4 n = false := by
    intro n
    rw [onsetAt, hch n]
    rfl
  have hcc : ∀ N, chirpedCount 4 N = 0 := by
    intro N
    induction N with
    | zero => rfl
    | succ N ih => rw [chirpedCount, ih, hch (N + 1)]; rfl
  have hoc : ∀ N, onsetCount 4 N = 0 := by
    intro N
    induction N with
    | zero => rfl
    | succ N ih => rw [onsetCount, ih, hon (N + 1)]; rfl
  exact ⟨hcc 20, hoc 20⟩

/-- Claim C3 as amended: with the configuration
silence_threshold_volume 0.3, silence_duration_sec 1.0 and
chirp_duration_sec 0.2, a continuous all-zero input keeps the silence
clock at or below 1.2 seconds (the re-arm reset fires whenever the
increment would push it beyond), and for every integer sample rate of at
least 5 Hz a 5-second all-silent input contains at least two chirp
onsets (a new burst begins roughly every 1.2 seconds).  At integer rates
below 5 Hz no chirp ever fires, which is what the counterexample
exhibits. -/
theorem rearm_repeats_chirp_onsets (R : ℕ) (hR : 5 ≤ R) :
    (∀ n, zeroSilenceState R n ≤ 1 + 1/5) ∧
    ∃ n₁ n₂, 0 < n₁ ∧ n₁ < n₂ ∧ n₂ ≤ 5 * R ∧
      onsetAt R n₁ = true ∧ onsetAt R n₂ = true := by
  have hR0 : 0 < R := by omega
  set T := 6 * R / 5 + 1 with hT
  have hd5 := Nat.div_add_mod (6 * R) 5
  have hm5 : (6 * R) % 5 < 5 := Nat.mod_lt _ (by norm_num)
  have hRT : R + 1 < T := by omega
  have hchirp : ∀ n, chirpedAt R n = true ↔ R < n % T := fun n =>
    chirpedAt_iff R hR0 n
  have hnotchirp : ∀ n, n % T ≤ R → chirpedAt R n = false := by
    intro n hn
    cases hc : chirpedAt R n
    · rfl
    · exact absurd ((hchirp n).mp hc) (by omega)
  constructor
  · intro n
    rw [zeroSilenceState_closed R hR0 n]
    have hmod : n % T < T := Nat.mod_lt _ (by omega)
    rw [show (1 : ℚ) + 1/5 = 6/5 from by norm_num,
      div_le_div_iff₀ (by exact_mod_cast hR0) (by norm_num)]
    have hle : (n % T) * 5 ≤ 6 * R := by omega
    exact_mod_cast hle
  · refine ⟨R + 1, T + R + 1, by omega, by omega, by omega, ?_, ?_⟩
    · rw [onsetAt]
      have h1 : chirpedAt R (R + 1) = true :=
        (hchirp (R + 1)).mpr (by rw [Nat.mod_eq_of_lt hRT]; omega)
      have h2 : chirpedAt R (R + 1 - 1) = false := by
        apply hnotchirp
        rw [show R + 1 - 1 = R from by omega, Nat.mod_eq_of_lt (by omega)]
      rw [h1, h2]
      rfl
    · rw [onsetAt]
      have h1 : chirpedAt R (T + R + 1) = true := by
        apply (hchirp (T + R + 1)).mpr
        rw [show T + R + 1 = T + (R + 1) from by omega, Nat.add_mod_left,
          Nat.mod_eq_of_lt hRT]
        omega
      have h2 : chirpedAt R (T + R + 1 - 1) = false := by
        apply hnotchirp
        rw [show T + R + 1 - 1 = T + R from by omega, Nat.add_mod_left,
          Nat.mod_eq_of_lt (by omega)]
      rw [h1, h2]
      rfl

/-- Witness for claim C3 as amended at the concrete sample rate 5 Hz. -/
theorem rearm_repeats_chirp_onsets_witness :
    (5 ≤ 5) ∧
    ((∀ n, zeroSilenceState 5 n ≤ 1 + 1/5) ∧
      ∃ n₁ n₂, 0 < n₁ ∧ n₁ < n₂ ∧ n₂ ≤ 5 * 5 ∧
        onsetAt 5 n₁ = true ∧ onsetAt 5 n₂ = true) :=
  ⟨le_refl 5, rearm_repeats_chirp_onsets 5 (le_refl 5)⟩

/-- Claim C4 (code bug): in the round-trip scenario — a 2-second,
8000 Hz, mono, all-zero input with file_duration_sec = 0 — the planning
step does compute a single 16000-sample output file, but the worker does
not complete successfully: queue_progress_update divides completed_sec
by file_duration_sec = 0, which in Python raises ZeroDivisionError (at
the latest at the unconditional final 100 percent update), so the run
aborts even though the option help text documents 0 as forcing a single
output file. -/
theorem zero_file_duration_run_fails :
    get_file_sample_count 0 2 8000 = 16000 ∧
    fileCount 16000 16000 = 1 ∧
    (process_file ⟨3/10, 1/2, 1/20, 1/10, 10, 0⟩ 1 8000 (fun _ => 0)
      (List.replicate 16000 [0]) 0 16000).2 = Except.error Err.zeroDivision := by
  refine ⟨?_, ?_, ?_⟩
  · rw [get_file_sample_count, if_neg (by norm_num), pyTrunc_eq,
      if_pos (by norm_num)]
    norm_num
  · rw [fileCount]
    norm_num
  · rw [process_file, read_samples, if_pos (by norm_num)]
    simp [queue_progress_update]

/-- Counterexample to claim C5: for an input reporting three channels
the worker does fail with the unsupported-channel-layout error, but not
before the segment output file exists: process_file opens the output
file for writing before the first sample is pulled from the read_samples
generator, and the channel check runs inside the generator, so the trace
at failure time already contains the openOutput event (the file has been
created on disk). -/
theorem output_file_created_before_channel_failure :
    process_file ⟨3/10, 3/2, 1/100, 1/100, 10, 1800⟩ 3 8000 (fun _ => 0)
      [[0, 0, 0]] 0 100 =
    ([Event.openOutput], Except.error Err.unsupportedChannelLayout) := by
  rw [process_file, read_samples, if_neg (by norm_num)]

/-- Claim C5 as amended: for every channel count outside {1, 2} the
worker aborts with the unsupported-channel-layout error before reading
any samples, encoding anything or writing any audio bytes — but after
creating (opening) its empty segment output file. -/
theorem unsupported_channel_layout_aborts (cfg : Config)
    (channelCount sampleRateHz : ℕ) (rand : ℕ → ℚ) (frames : List (List ℤ))
    (fileIdx fileSampleCount : ℕ)
    (h : ¬ (channelCount = 1 ∨ channelCount = 2)) :
    process_file cfg channelCount sampleRateHz rand frames fileIdx fileSampleCount =
      ([Event.openOutput], Except.error Err.unsupportedChannelLayout) := by
  rw [process_file, read_samples, if_neg h]

/-- Witness for claim C5 as amended at a concrete input with five
channels. -/
theorem unsupported_channel_layout_aborts_witness :
    (¬ ((5 : ℕ) = 1 ∨ (5 : ℕ) = 2)) ∧
    process_file ⟨3/10, 3/2, 1/100, 1/100, 10, 1800⟩ 5 44100 (fun _ => 1/2)
      [[1, 2, 3, 4, 5]] 2 7 =
      ([Event.openOutput], Except.error Err.unsupportedChannelLayout) :=
  ⟨by norm_num,
    unsupported_channel_layout_aborts ⟨3/10, 3/2, 1/100, 1/100, 10, 1800⟩
      5 44100 (fun _ => 1/2) [[1, 2, 3, 4, 5]] 2 7 (by norm_num)⟩

/-- Counterexample to claim C9: a full-scale negative mono frame is
yielded by read_samples as -32768, and after the normalization by 32767
performed in process_file the resulting float sample is
-32768/32767 < -1, so not every yielded sample lies in [-1, 1]. -/
theorem full_scale_negative_sample_below_minus_one :
    read_samples 1 [[-32768]] 0 1 = Except.ok [downmix [-32768]] ∧
    normalizeSample (downmix [-32768]) < -1 := by
  constructor
  · rw [read_samples, if_pos (by norm_num), windowLoop_zero]
    simp
  · rw [normalizeSample, downmix]
    norm_num

/-- Claim C9 as amended: for a supported channel count and frames of
that width whose 16-bit words lie in [-32768, 32767], read_samples
yields exactly the downmixed frames whose indices lie in the window
[offset, offset + count) — frames before the offset are decoded but not
yielded, frames at or beyond the end of the window are not yielded — a
stereo frame downmixes to the mean of its two channel values, and after
the normalization by 32767 every yielded sample lies in
[-32768/32767, 1] (slightly below -1 for full-scale negative frames,
rather than in [-1, 1] as originally claimed). -/
theorem sample_stream_window_and_bounds (channelCount : ℕ)
    (frames : List (List ℤ)) (fileIdx fileSampleCount : ℕ)
    (hcc : channelCount = 1 ∨ channelCount = 2)
    (hframes : ∀ fr ∈ frames, fr.length = channelCount ∧
      ∀ v ∈ fr, -32768 ≤ v ∧ v ≤ 32767) :
    read_samples channelCount frames fileIdx fileSampleCount =
      Except.ok (((frames.drop (fileIdx * fileSampleCount)).take
        fileSampleCount).map downmix) ∧
    (∀ a b : ℤ, downmix [a, b] = ((a : ℚ) + (b : ℚ)) / 2) ∧
    (∀ q ∈ ((frames.drop (fileIdx * fileSampleCount)).take
        fileSampleCount).map downmix,
      -(32768/32767 : ℚ) ≤ normalizeSample q ∧ normalizeSample q ≤ 1) := by
  refine ⟨?_, ?_, ?_⟩
  · rw [read_samples, if_pos hcc, windowLoop_zero]
  · intro a b
    rw [downmix]
    push_cast [List.sum_cons]
    norm_num
  · intro q hq
    rcases List.mem_map.mp hq with ⟨fr, hfr, rfl⟩
    have hfr2 : fr ∈ frames :=
      List.drop_subset _ _ (List.take_subset _ _ hfr)
    obtain ⟨hlen, hbound⟩ := hframes fr hfr2
    have hdm : -32768 ≤ downmix fr ∧ downmix fr ≤ 32767 := by
      rcases hcc with h1 | h2
      · rw [h1] at hlen
        obtain ⟨a, rfl⟩ := List.length_eq_one.mp hlen
        obtain ⟨ha1, ha2⟩ := hbound a (by simp)
        have hdm1 : downmix [a] = (a : ℚ) := by
          rw [downmix]
          simp
        rw [hdm1]
        exact ⟨by exact_mod_cast ha1, by exact_mod_cast ha2⟩
      · rw [h2] at hlen
        obtain ⟨a, b, rfl⟩ := List.length_eq_two.mp hlen
        obtain ⟨ha1, ha2⟩ := hbound a (by simp)
        obtain ⟨hb1, hb2⟩ := hbound b (by simp)
        have hdm2 : downmix [a, b] = ((a : ℚ) + (b : ℚ)) / 2 := by
          rw [downmix]
          push_cast [List.sum_cons]
          norm_num
        rw [hdm2]
        have ha1q : (-32768 : ℚ) ≤ (a : ℚ) := by exact_mod_cast ha1
        have ha2q : (a : ℚ) ≤ 32767 := by exact_mod_cast ha2
        have hb1q : (-32768 : ℚ) ≤ (b : ℚ) := by exact_mod_cast hb1
        have hb2q : (b : ℚ) ≤ 32767 := by exact_mod_cast hb2
        constructor <;> linarith
    constructor
    · rw [normalizeSample,
        show -(32768/32767 : ℚ) = (-32768 : ℚ) / 32767 from by norm_num,
        div_le_div_iff₀ (by norm_num) (by norm_num)]
      linarith [hdm.1]
    · rw [normalizeSample, div_le_one (by norm_num : (0 : ℚ) < 32767)]
      linarith [hdm.2]

/-- Witness for claim C9 as amended at a concrete input: one stereo
frame with words 100 and -200, window [0, 1). -/
theorem sample_stream_window_and_bounds_witness :
    ((2 : ℕ) = 1 ∨ (2 : ℕ) = 2) ∧
    (∀ fr ∈ ([[100, -200]] : List (List ℤ)), fr.length = 2 ∧
      ∀ v ∈ fr, -32768 ≤ v ∧ v ≤ 32767) ∧
    (read_samples 2 [[100, -200]] 0 1 =
      Except.ok (((([[100, -200]] : List (List ℤ)).drop (0 * 1)).take 1).map downmix) ∧
    (∀ a b : ℤ, downmix [a, b] = ((a : ℚ) + (b : ℚ)) / 2) ∧
    (∀ q ∈ ((([[100, -200]] : List (List ℤ)).drop (0 * 1)).take 1).map downmix,
      -(32768/32767 : ℚ) ≤ normalizeSample q ∧ normalizeSample q ≤ 1)) :=
  ⟨by norm_num, by decide,
    sample_stream_window_and_bounds 2 [[100, -200]] 0 1 (by norm_num) (by decide)⟩

end AddChirps
